import Mathlib

/-
  Verification development for the agent-code repository.

  The definitions below are a shallow embedding of
  `agent-code-backend/agents/tools/write_utils.py` (line store, boundary
  resolver, locator resolver, mutation engine) and of the per-file portion
  of `agent-code-backend/agents/tools/search.py` (line matching, relevance
  scoring, ranking).

  File contents are modelled as `List Char` (the text Python sees after
  decoding), the filesystem as an association list from paths to contents,
  and a possible failure of the final write as an explicit `WriteOutcome`
  parameter (a failed write may leave arbitrary junk in the file before the
  exception handler restores the backup, mirroring an interrupted
  `write_file_lines`).
-/

namespace AgentCode

/-- File contents (and single lines) as the list of their characters. -/
abbrev Content := List Char

/-! ## Python string primitives -/

def isWS (c : Char) : Bool := c.isWhitespace

/-- Python `str.lstrip()`. -/
def pyLstrip (cs : Content) : Content := cs.dropWhile isWS

/-- Python `str.rstrip()`. -/
def pyRstrip (cs : Content) : Content := (cs.reverse.dropWhile isWS).reverse

/-- Python `str.strip()`. -/
def pyStrip (cs : Content) : Content := pyRstrip (pyLstrip cs)

/-- `len(line) - len(line.lstrip())`: the number of leading whitespace
characters of a line. -/
def leadingWS (cs : Content) : Nat := (cs.takeWhile isWS).length

/-- Python `s.startswith(pre)`: `startsL pre s`. -/
def startsL : Content → Content → Bool
  | [], _ => true
  | _ :: _, [] => false
  | a :: as, b :: bs => a == b && startsL as bs

/-- Python `needle in hay` (substring containment). -/
def containsSub (n : Content) : Content → Bool
  | [] => n.isEmpty
  | c :: rest => startsL n (c :: rest) || containsSub n rest

/-- `if not code.endswith('\n'): code += '\n'`. -/
def ensureNL (cs : Content) : Content :=
  if cs.getLast? = some '\n' then cs else cs ++ ['\n']

/-- Worker for `readlines`: splits after each newline, keeping the newline
character; the accumulator holds the current (reversed) partial line. -/
def splitNL (acc : Content) : Content → List Content
  | [] => if acc.isEmpty then [] else [acc.reverse]
  | c :: rest =>
    if c = '\n' then (acc.reverse ++ ['\n']) :: splitNL [] rest
    else splitNL (c :: acc) rest

/-- Python `f.readlines()`: the lines of a file, each keeping its trailing
newline; a final fragment without a newline is kept as a last line. -/
def readlines (cs : Content) : List Content := splitNL [] cs

/-- Python `f.writelines(lines)`: concatenation of the lines. -/
def joinLines : List Content → Content
  | [] => []
  | l :: ls => l ++ joinLines ls

/-- Index of the first element satisfying `p` (the `for i, line in
enumerate(lines): if ...: break` idiom). -/
def findFirst (p : α → Bool) : List α → Option Nat
  | [] => none
  | a :: as => if p a then some 0 else (findFirst p as).map (· + 1)

/-- Pair every element with its 0-based index, starting at `n`. -/
def withIdx (n : Nat) : List α → List (Nat × α)
  | [] => []
  | a :: as => (n, a) :: withIdx (n + 1) as

/-- Python `lines.insert(i, x)` for `i ≤ len(lines)` (the only way the code
calls it): insert `x` before position `i`. -/
def insertAt : Nat → α → List α → List α
  | 0, x, l => x :: l
  | _ + 1, x, [] => [x]
  | n + 1, x, a :: l => a :: insertAt n x l

/-- Python slice `l[k:]` for an arbitrary (possibly negative) `k`. -/
def pySliceFrom (l : List α) (k : Int) : List α :=
  if k < 0 then l.drop (((l.length : Int) + k).toNat) else l.drop k.toNat

/-! ## Boundary resolver (`find_function_or_class_boundaries`) -/

/-- The construct test applied to a candidate terminating line:
`stripped.startswith('def ') or stripped.startswith('class ') or
stripped.startswith('if __name__') or not line.startswith(' ')`. -/
def isBoundaryLine (l : Content) : Bool :=
  let s := pyStrip l
  startsL ("def ").data s || startsL ("class ").data s ||
    startsL ("if __name__").data s || !(startsL [' '] l)

/-- The forward scan of `find_function_or_class_boundaries`: walk the lines
after the declaration (`i` is the absolute index of the head of `rest`),
skipping blank lines, stopping at the first non-blank line whose indentation
is `≤ base` and which passes the construct test; if none, the scan runs off
the end (returning `i + rest.length`, i.e. `len(lines)` at the call sites,
where `rest` is the suffix of the file starting at `i`). -/
def findEndFrom (base : Nat) : Nat → List Content → Nat
  | i, [] => i
  | i, l :: rest =>
    if (pyStrip l).isEmpty then findEndFrom base (i + 1) rest
    else if leadingWS l ≤ base ∧ isBoundaryLine l = true then i
    else findEndFrom base (i + 1) rest

/-- The backward scan of `find_function_or_class_boundaries`: absorb
decorator and blank lines immediately above the declaration.  `walkBack
lines j` is the loop with the candidate start currently at `j`, examining
line `j - 1` next. -/
def walkBack (lines : List Content) : Nat → Nat
  | 0 => 0
  | j + 1 =>
    let s := pyStrip (lines.getD j [])
    if startsL ['@'] s || s.isEmpty then walkBack lines j else j + 1

/-- `find_function_or_class_boundaries(lines, start_line, target_name)`:
returns the `(actual_start, end_idx)` pair (0-based, end exclusive).  The
`targetName` argument is unused, exactly as in the source.  All call sites
pass `1 ≤ start_line ≤ len(lines)`, for which the `drop`-based forward scan
coincides with the source's `for i in range(start_idx + 1, len(lines))`. -/
def find_function_or_class_boundaries (lines : List Content) (startLine : Nat)
    (targetName : String) : Nat × Nat :=
  let _ := targetName
  let startIdx := startLine - 1
  let base := leadingWS (lines.getD startIdx [])
  (walkBack lines startIdx, findEndFrom base (startIdx + 1) (lines.drop (startIdx + 1)))

/-! ## Filesystem model and mutation engine -/

/-- The filesystem: an association list from paths to file contents. -/
abbrev FS := List (String × Content)

/-- Content of the file at `p`, if it exists. -/
def FS.find : FS → String → Option Content
  | [], _ => none
  | (q, c) :: rest, p => if q = p then some c else FS.find rest p

/-- Write (create or overwrite) the file at `p`. -/
def FS.set : FS → String → Content → FS
  | [], p, c => [(p, c)]
  | (q, d) :: rest, p, c => if q = p then (p, c) :: rest else (q, d) :: FS.set rest p c

/-- The error kinds a mutation operation can raise (all surfaced as
`WriteUtilsError` in the source; distinguished here by their message). -/
inductive WErr where
  | notExist
  | symbolNotFound
  | outOfBounds
  | invalidLocator
  | ioWrite
  deriving DecidableEq, Repr

/-- Whether the final `write_file_lines` succeeds.  A failed write may leave
arbitrary `junk` on disk before the exception propagates to the handler. -/
inductive WriteOutcome where
  | ok
  | fail (junk : Content)

/-- The `except` handler's `if os.path.exists(backup_path):
shutil.copy2(backup_path, file_path)`. -/
def restoreFrom (fs : FS) (path bpath : String) : FS :=
  match FS.find fs bpath with
  | some b => FS.set fs path b
  | none => fs

/-- Restore the backup and surface the error. -/
def restoreFail (fs : FS) (path bpath : String) (e : WErr) : Except WErr Unit × FS :=
  (Except.error e, restoreFrom fs path bpath)

/-- `write_file_lines` under the chosen outcome, including the handler's
restore on failure. -/
def doWrite (wo : WriteOutcome) (fs : FS) (path bpath : String) (newContent : Content) :
    Except WErr Unit × FS :=
  match wo with
  | WriteOutcome.ok => (Except.ok (), FS.set fs path newContent)
  | WriteOutcome.fail junk =>
    (Except.error WErr.ioWrite, restoreFrom (FS.set fs path junk) path bpath)

/-- Python truthiness of an optional-string argument (`None` and `""` are
falsy). -/
def truthy : Option String → Bool
  | none => false
  | some s => !(s = "")

/-- Python `a or b` on optional strings. -/
def pyOr (a b : Option String) : Option String :=
  if truthy a then a else b

/-- The scan `for i, line in enumerate(lines): if f"{ttype} {tname}" in
line:` — index of the first line containing the pattern as a plain
substring. -/
def findSymbolIdx (ttype tname : String) (lines : List Content) : Option Nat :=
  findFirst (containsSub (ttype ++ " " ++ tname).data) lines

/-- The insert-position computation of `add_code`: an explicit line number
is clamped into `[0, len(lines)]`; otherwise a symbol is searched and the
code is inserted at the end of its span; with no locator at all the code is
appended at the end of the file. -/
def addInsertIdx (lines : List Content) (ln : Option Int)
    (afterFn afterCls : Option String) : Except WErr Nat :=
  match ln with
  | some n =>
    let i : Int := n - 1
    Except.ok (if i < 0 then 0 else min i.toNat lines.length)
  | none =>
    if truthy afterFn || truthy afterCls then
      let tname := (pyOr afterFn afterCls).getD ""
      let ttype := if truthy afterFn then "def" else "class"
      match findSymbolIdx ttype tname lines with
      | some i =>
        Except.ok (find_function_or_class_boundaries lines (i + 1) tname).2
      | none => Except.error WErr.symbolNotFound
    else Except.ok lines.length

/-- Body of `add_code` after the existence check and backup creation. -/
def addGo (wo : WriteOutcome) (fs : FS) (path code : String) (ln : Option Int)
    (afterFn afterCls : Option String) (orig : Content) : Except WErr Unit × FS :=
  let bpath := path ++ ".backup"
  let fs1 := FS.set fs bpath orig
  let lines := readlines orig
  let codeN := ensureNL code.data
  match addInsertIdx lines ln afterFn afterCls with
  | Except.error e => restoreFail fs1 path bpath e
  | Except.ok idx => doWrite wo fs1 path bpath (joinLines (insertAt idx codeN lines))

/-- `add_code(file_path, code, line_number, after_function, after_class)`. -/
def add_code (wo : WriteOutcome) (fs : FS) (path code : String) (ln : Option Int)
    (afterFn afterCls : Option String) : Except WErr Unit × FS :=
  match FS.find fs path with
  | none => (Except.error WErr.notExist, fs)
  | some orig => addGo wo fs path code ln afterFn afterCls orig

/-- The common `(replace_start, replace_end)` / `(delete_start, delete_end)`
computation of `replace_code` and `delete_code` (their locator logic is
textually identical).  Returned indices are 0-based and inclusive, as `Int`
because Python subtracts before any bound check. -/
def locRange (lines : List Content) (ln : Option Int) (fnName clsName : Option String)
    (startLine endLine : Option Int) : Except WErr (Int × Int) :=
  match ln with
  | some n => Except.ok (n - 1, n - 1)
  | none =>
    if truthy fnName || truthy clsName then
      let tname := (pyOr fnName clsName).getD ""
      let ttype := if truthy fnName then "def" else "class"
      match findSymbolIdx ttype tname lines with
      | some i =>
        let b := find_function_or_class_boundaries lines (i + 1) tname
        Except.ok ((b.1 : Int), (b.2 : Int) - 1)
      | none => Except.error WErr.symbolNotFound
    else
      match startLine, endLine with
      | some s, some e => Except.ok (s - 1, e - 1)
      | _, _ => Except.error WErr.invalidLocator

/-- Body of `replace_code` after the existence check and backup creation.
The only bound check is `replace_start < 0 or replace_end >= len(lines)`. -/
def replaceGo (wo : WriteOutcome) (fs : FS) (path newCode : String) (ln : Option Int)
    (fnName clsName : Option String) (startLine endLine : Option Int)
    (orig : Content) : Except WErr Unit × FS :=
  let bpath := path ++ ".backup"
  let fs1 := FS.set fs bpath orig
  let lines := readlines orig
  let codeN := ensureNL newCode.data
  match locRange lines ln fnName clsName startLine endLine with
  | Except.error e => restoreFail fs1 path bpath e
  | Except.ok (rs, re) =>
    if rs < 0 ∨ (lines.length : Int) ≤ re then restoreFail fs1 path bpath WErr.outOfBounds
    else
      doWrite wo fs1 path bpath
        (joinLines (lines.take rs.toNat ++ codeN :: pySliceFrom lines (re + 1)))

/-- `replace_code(file_path, new_code, line_number, function_name,
class_name, start_line, end_line)`. -/
def replace_code (wo : WriteOutcome) (fs : FS) (path newCode : String) (ln : Option Int)
    (fnName clsName : Option String) (startLine endLine : Option Int) :
    Except WErr Unit × FS :=
  match FS.find fs path with
  | none => (Except.error WErr.notExist, fs)
  | some orig => replaceGo wo fs path newCode ln fnName clsName startLine endLine orig

/-- Body of `delete_code` after the existence check and backup creation. -/
def deleteGo (wo : WriteOutcome) (fs : FS) (path : String) (ln : Option Int)
    (fnName clsName : Option String) (startLine endLine : Option Int)
    (orig : Content) : Except WErr Unit × FS :=
  let bpath := path ++ ".backup"
  let fs1 := FS.set fs bpath orig
  let lines := readlines orig
  match locRange lines ln fnName clsName startLine endLine with
  | Except.error e => restoreFail fs1 path bpath e
  | Except.ok (rs, re) =>
    if rs < 0 ∨ (lines.length : Int) ≤ re then restoreFail fs1 path bpath WErr.outOfBounds
    else
      doWrite wo fs1 path bpath
        (joinLines (lines.take rs.toNat ++ pySliceFrom lines (re + 1)))

/-- `delete_code(file_path, line_number, function_name, class_name,
start_line, end_line)`. -/
def delete_code (wo : WriteOutcome) (fs : FS) (path : String) (ln : Option Int)
    (fnName clsName : Option String) (startLine endLine : Option Int) :
    Except WErr Unit × FS :=
  match FS.find fs path with
  | none => (Except.error WErr.notExist, fs)
  | some orig => deleteGo wo fs path ln fnName clsName startLine endLine orig

/-! ## Codebase search (per-file portion of `search.py`) -/

/-- The regular-expression atoms actually occurring in the pattern strings
built by `search_function_def`: a literal character (compared
case-insensitively, for `re.IGNORECASE`), `\s+`, `\s*`, and `[^)]*`. -/
inductive PatAtom where
  | lit (c : Char)
  | ws1
  | ws0
  | npar
  deriving DecidableEq, Repr

/-- Worker for `matchAtomsAt`, structurally recursive on an explicit fuel
bound so that the kernel can evaluate it: every recursive call strictly
decreases `pats.length + input.length`, so `pats.length + input.length + 1`
units of fuel always suffice and the `0` case is unreachable from
`matchAtomsAt`. -/
def matchAtomsFuel : Nat → List PatAtom → List Char → Bool
  | 0, _, _ => false
  | _ + 1, [], _ => true
  | _ + 1, PatAtom.lit _ :: _, [] => false
  | fuel + 1, PatAtom.lit c :: ps, d :: rest =>
    (c.toLower == d.toLower) && matchAtomsFuel fuel ps rest
  | _ + 1, PatAtom.ws1 :: _, [] => false
  | fuel + 1, PatAtom.ws1 :: ps, d :: rest =>
    d.isWhitespace && matchAtomsFuel fuel (PatAtom.ws0 :: ps) rest
  | fuel + 1, PatAtom.ws0 :: ps, cs =>
    matchAtomsFuel fuel ps cs ||
      (match cs with
       | d :: rest => d.isWhitespace && matchAtomsFuel fuel (PatAtom.ws0 :: ps) rest
       | [] => false)
  | fuel + 1, PatAtom.npar :: ps, cs =>
    matchAtomsFuel fuel ps cs ||
      (match cs with
       | d :: rest => !(d == ')') && matchAtomsFuel fuel (PatAtom.npar :: ps) rest
       | [] => false)

/-- Match a list of pattern atoms against a prefix of the input, with
backtracking for the starred atoms. -/
def matchAtomsAt (pats : List PatAtom) (cs : List Char) : Bool :=
  matchAtomsFuel (pats.length + cs.length + 1) pats cs

/-- `re.search`: the pattern matches at some position of the input. -/
def searchPat (pats : List PatAtom) : List Char → Bool
  | [] => matchAtomsAt pats []
  | c :: rest => matchAtomsAt pats (c :: rest) || searchPat pats rest

/-- The characters of `s` as literal atoms (the effect of `re.escape`). -/
def litsOf (s : String) : List PatAtom := s.data.map PatAtom.lit

/-- `search_function_def(query, content)`: the three alternative patterns
`def\s+Q\s*\(`, `function\s+Q\s*\(` and `Q\s*\([^)]*\)\s*{`, searched
case-insensitively. -/
def search_function_def (query : String) (content : Content) : Bool :=
  searchPat (litsOf "def" ++ [PatAtom.ws1] ++ litsOf query ++ [PatAtom.ws0, PatAtom.lit '(']) content ||
  searchPat (litsOf "function" ++ [PatAtom.ws1] ++ litsOf query ++ [PatAtom.ws0, PatAtom.lit '(']) content ||
  searchPat (litsOf query ++ [PatAtom.ws0, PatAtom.lit '(', PatAtom.npar, PatAtom.lit ')',
    PatAtom.ws0, PatAtom.lit '\x7b']) content

/-- `search_regex(pattern, content)`: the ambient regex engine is abstracted
as a partial compilation function; `none` models a pattern on which
`re.search` raises `re.error`, which the source catches, returning
`False`. -/
def search_regex (engine : String → Option (Content → Bool)) (pattern : String)
    (content : Content) : Bool :=
  match engine pattern with
  | none => false
  | some f => f content

/-- `re` word characters (ASCII fragment of `\w`). -/
def isWordChar (c : Char) : Bool := c.isAlphanum || c == '_'

/-- Is the character at index `i` a word character (out of range counts as
non-word)? -/
def wordAt (l : List Char) (i : Nat) : Bool :=
  match l.get? i with
  | some c => isWordChar c
  | none => false

/-- `\b`: a word boundary sits at position `i` iff exactly one of the two
surrounding characters is a word character. -/
def boundaryAt (l : List Char) : Nat → Bool
  | 0 => wordAt l 0
  | j + 1 => wordAt l j != wordAt l (j + 1)

/-- `re.search(rf'\b{re.escape(q)}\b', l)` for a literal `q`. -/
def wordBoundaryMatch (q l : List Char) : Bool :=
  (List.range (l.length + 1)).any fun i =>
    boundaryAt l i && startsL q (l.drop i) && boundaryAt l (i + q.length)

/-- Worker for `countSub`, structurally recursive on an explicit fuel bound
so that the kernel can evaluate it: every recursive call strictly decreases
the haystack's length, so `hay.length + 1` units of fuel always suffice. -/
def countSubFuel : Nat → List Char → List Char → Nat
  | 0, _, _ => 0
  | _ + 1, n, [] => if n.isEmpty then 1 else 0
  | fuel + 1, n, c :: rest =>
    if n.isEmpty then 1 + countSubFuel fuel n rest
    else if startsL n (c :: rest) then
      1 + countSubFuel fuel n (List.drop (n.length - 1) rest)
    else countSubFuel fuel n rest

/-- Python `hay.count(n)`: number of non-overlapping occurrences. -/
def countSub (n hay : List Char) : Nat := countSubFuel (hay.length + 1) n hay

def toLowerL (cs : List Char) : List Char := cs.map Char.toLower

/-- `calculate_relevance_score(match, query)`, in tenths (the source uses
the float scores 5.0 / 4.0 / 3.0 / 2.5 / 1.0 plus 0.1 per occurrence; all
comparisons between such scores coincide with the integer comparisons on
tenths). -/
def calculate_relevance_score (query : String) (content : Content) : Nat :=
  let line := toLowerL content
  let q := toLowerL query.data
  let base :=
    if q = pyStrip line then 50
    else if containsSub ("def ").data line || containsSub ("class ").data line then 40
    else if startsL q (pyStrip line) then 30
    else if wordBoundaryMatch q line then 25
    else 10
  base + countSub q line

/-- One search hit: 1-based line number, rstripped line text, relevance
score in tenths. -/
structure SMatch where
  lineNumber : Nat
  content : Content
  score : Nat
  deriving DecidableEq, Repr

/-- Insert `x` into a list already sorted by descending score: `x` passes
over the strictly higher scores and lands before the first score `≤` its
own.  Since `sortDesc` inserts earlier-scanned elements last, an element
ends up before all later-scanned elements of equal score — the stability
guarantee of `matches.sort(key=lambda x: x.confidence, reverse=True)`. -/
def insertDesc (x : SMatch) : List SMatch → List SMatch
  | [] => [x]
  | y :: ys => if x.score < y.score then y :: insertDesc x ys else x :: y :: ys

/-- Stable sort by descending score. -/
def sortDesc : List SMatch → List SMatch
  | [] => []
  | x :: xs => insertDesc x (sortDesc xs)

/-- The per-line scan of `search_internal` for one file: rstrip each line,
keep those where the mode's matcher fires, attach 1-based line numbers and
relevance scores. -/
def collectMatches (p : Content → Bool) (query : String) (fileLines : List Content) :
    List SMatch :=
  (withIdx 0 fileLines).filterMap fun ia =>
    let lc := pyRstrip ia.2
    if p lc then some ⟨ia.1 + 1, lc, calculate_relevance_score query lc⟩ else none

/-- `search_internal` restricted to a single file: collect at most
`2 * maxResults` matches in scan order, sort stably by descending score,
truncate to `maxResults`. -/
def search_lines (p : Content → Bool) (query : String) (maxResults : Nat)
    (fileLines : List Content) : List SMatch :=
  (sortDesc ((collectMatches p query fileLines).take (2 * maxResults))).take maxResults

/-- `search_internal` in `function_def` mode on a single file. -/
def searchFileFunctionDef (query : String) (maxResults : Nat)
    (fileLines : List Content) : List SMatch :=
  search_lines (search_function_def query) query maxResults fileLines

/-- `search_internal` in `regex` mode on a single file. -/
def searchFileRegex (engine : String → Option (Content → Bool)) (pattern : String)
    (maxResults : Nat) (fileLines : List Content) : List SMatch :=
  search_lines (search_regex engine pattern) pattern maxResults fileLines

/-! ## Lemmas about the filesystem model -/

theorem find_set_self (fs : FS) (p : String) (c : Content) :
    FS.find (FS.set fs p c) p = some c := by
  induction fs with
  | nil => simp [FS.set, FS.find]
  | cons qd rest ih =>
    obtain ⟨q, d⟩ := qd
    by_cases h : q = p <;> simp [FS.set, FS.find, h, ih]

theorem find_set_ne (fs : FS) (p q : String) (c : Content) (h : p ≠ q) :
    FS.find (FS.set fs q c) p = FS.find fs p := by
  have hqp : ¬(q = p) := fun hq => h hq.symm
  induction fs with
  | nil => simp [FS.set, FS.find, hqp]
  | cons rd rest ih =>
    obtain ⟨r, d⟩ := rd
    by_cases hq : r = q
    · subst hq
      simp [FS.set, FS.find, hqp]
    · simp [FS.set, FS.find, hq, ih]

theorem backup_ne (p : String) : p ≠ p ++ ".backup" := by
  intro h
  have hl := congrArg String.length h
  rw [String.length_append] at hl
  have h7 : ".backup".length = 7 := rfl
  omega

theorem restore_finds (fs : FS) (p b : String) (orig : Content)
    (hb : FS.find fs b = some orig) :
    FS.find (restoreFrom fs p b) p = some orig := by
  unfold restoreFrom
  rw [hb]
  exact find_set_self fs p orig

/-- On every path of `addGo` that returns an error, the target file holds
its original content afterwards. -/
theorem addGo_error (wo : WriteOutcome) (fs : FS) (path code : String) (ln : Option Int)
    (af ac : Option String) (orig : Content) (e : WErr)
    (h : (addGo wo fs path code ln af ac orig).1 = Except.error e) :
    FS.find (addGo wo fs path code ln af ac orig).2 path = some orig := by
  simp only [addGo] at h ⊢
  cases hidx : addInsertIdx (readlines orig) ln af ac with
  | error e2 =>
    exact restore_finds _ _ _ _ (find_set_self fs _ orig)
  | ok idx =>
    dsimp only at h ⊢
    cases wo with
    | ok =>
      rw [hidx] at h
      simp [doWrite] at h
    | fail junk =>
      simp only [doWrite]
      apply restore_finds
      rw [find_set_ne _ _ _ _ ((backup_ne path).symm)]
      exact find_set_self fs _ orig

/-- On every path of `replaceGo` that returns an error, the target file
holds its original content afterwards. -/
theorem replaceGo_error (wo : WriteOutcome) (fs : FS) (path code : String)
    (ln : Option Int) (fn cn : Option String) (sl el : Option Int) (orig : Content)
    (e : WErr)
    (h : (replaceGo wo fs path code ln fn cn sl el orig).1 = Except.error e) :
    FS.find (replaceGo wo fs path code ln fn cn sl el orig).2 path = some orig := by
  simp only [replaceGo] at h ⊢
  cases hr : locRange (readlines orig) ln fn cn sl el with
  | error e2 =>
    exact restore_finds _ _ _ _ (find_set_self fs _ orig)
  | ok p =>
    obtain ⟨rs, re⟩ := p
    dsimp only at h ⊢
    by_cases hv : rs < 0 ∨ ((readlines orig).length : Int) ≤ re
    · simp only [hv, if_true]
      exact restore_finds _ _ _ _ (find_set_self fs _ orig)
    · simp only [hv, if_false] at h ⊢
      cases wo with
      | ok =>
        rw [hr] at h
        simp [hv, doWrite] at h
      | fail junk =>
        simp only [doWrite]
        apply restore_finds
        rw [find_set_ne _ _ _ _ ((backup_ne path).symm)]
        exact find_set_self fs _ orig

/-- On every path of `deleteGo` that returns an error, the target file holds
its original content afterwards. -/
theorem deleteGo_error (wo : WriteOutcome) (fs : FS) (path : String)
    (ln : Option Int) (fn cn : Option String) (sl el : Option Int) (orig : Content)
    (e : WErr)
    (h : (deleteGo wo fs path ln fn cn sl el orig).1 = Except.error e) :
    FS.find (deleteGo wo fs path ln fn cn sl el orig).2 path = some orig := by
  simp only [deleteGo] at h ⊢
  cases hr : locRange (readlines orig) ln fn cn sl el with
  | error e2 =>
    exact restore_finds _ _ _ _ (find_set_self fs _ orig)
  | ok p =>
    obtain ⟨rs, re⟩ := p
    dsimp only at h ⊢
    by_cases hv : rs < 0 ∨ ((readlines orig).length : Int) ≤ re
    · simp only [hv, if_true]
      exact restore_finds _ _ _ _ (find_set_self fs _ orig)
    · simp only [hv, if_false] at h ⊢
      cases wo with
      | ok =>
        rw [hr] at h
        simp [hv, doWrite] at h
      | fail junk =>
        simp only [doWrite]
        apply restore_finds
        rw [find_set_ne _ _ _ _ ((backup_ne path).symm)]
        exact find_set_self fs _ orig

/-- On the success path of `addGo`, the backup file still holds the original
content afterwards (the source never removes it). -/
theorem addGo_ok (wo : WriteOutcome) (fs : FS) (path code : String) (ln : Option Int)
    (af ac : Option String) (orig : Content) (u : Unit)
    (h : (addGo wo fs path code ln af ac orig).1 = Except.ok u) :
    FS.find (addGo wo fs path code ln af ac orig).2 (path ++ ".backup") = some orig := by
  simp only [addGo] at h ⊢
  cases hidx : addInsertIdx (readlines orig) ln af ac with
  | error e2 =>
    rw [hidx] at h
    simp [restoreFail] at h
  | ok idx =>
    rw [hidx] at h
    cases wo with
    | ok =>
      dsimp only [doWrite]
      rw [find_set_ne _ _ _ _ ((backup_ne path).symm)]
      exact find_set_self fs _ orig
    | fail junk => simp [doWrite] at h

/-- On the success path of `replaceGo`, the backup file still holds the
original content afterwards. -/
theorem replaceGo_ok (wo : WriteOutcome) (fs : FS) (path code : String)
    (ln : Option Int) (fn cn : Option String) (sl el : Option Int) (orig : Content)
    (u : Unit)
    (h : (replaceGo wo fs path code ln fn cn sl el orig).1 = Except.ok u) :
    FS.find (replaceGo wo fs path code ln fn cn sl el orig).2 (path ++ ".backup")
      = some orig := by
  simp only [replaceGo] at h ⊢
  cases hr : locRange (readlines orig) ln fn cn sl el with
  | error e2 =>
    rw [hr] at h
    simp [restoreFail] at h
  | ok p =>
    obtain ⟨rs, re⟩ := p
    rw [hr] at h
    by_cases hv : rs < 0 ∨ ((readlines orig).length : Int) ≤ re
    · simp [hv, restoreFail] at h
    · simp only [hv, if_false] at h ⊢
      cases wo with
      | ok =>
        dsimp only [doWrite]
        rw [find_set_ne _ _ _ _ ((backup_ne path).symm)]
        exact find_set_self fs _ orig
      | fail junk => simp [doWrite] at h

/-- On the success path of `deleteGo`, the backup file still holds the
original content afterwards. -/
theorem deleteGo_ok (wo : WriteOutcome) (fs : FS) (path : String)
    (ln : Option Int) (fn cn : Option String) (sl el : Option Int) (orig : Content)
    (u : Unit)
    (h : (deleteGo wo fs path ln fn cn sl el orig).1 = Except.ok u) :
    FS.find (deleteGo wo fs path ln fn cn sl el orig).2 (path ++ ".backup")
      = some orig := by
  simp only [deleteGo] at h ⊢
  cases hr : locRange (readlines orig) ln fn cn sl el with
  | error e2 =>
    rw [hr] at h
    simp [restoreFail] at h
  | ok p =>
    obtain ⟨rs, re⟩ := p
    rw [hr] at h
    by_cases hv : rs < 0 ∨ ((readlines orig).length : Int) ≤ re
    · simp [hv, restoreFail] at h
    · simp only [hv, if_false] at h ⊢
      cases wo with
      | ok =>
        dsimp only [doWrite]
        rw [find_set_ne _ _ _ _ ((backup_ne path).symm)]
        exact find_set_self fs _ orig
      | fail junk => simp [doWrite] at h

/-! ## Lemmas about line splitting and joining -/

theorem join_splitNL : ∀ (cs acc : Content), joinLines (splitNL acc cs) = acc.reverse ++ cs := by
  intro cs
  induction cs with
  | nil =>
    intro acc
    cases acc <;> simp [splitNL, joinLines]
  | cons c rest ih =>
    intro acc
    by_cases h : c = '\n'
    · subst h
      simp only [splitNL, if_pos rfl, joinLines, ih []]
      simp
    · simp only [splitNL, if_neg h, ih (c :: acc), List.reverse_cons]
      simp

/-- `writelines` is a left inverse of `readlines`. -/
theorem join_readlines (cs : Content) : joinLines (readlines cs) = cs := by
  have h := join_splitNL cs []
  rw [List.reverse_nil, List.nil_append] at h
  exact h

theorem joinLines_append (a b : List Content) :
    joinLines (a ++ b) = joinLines a ++ joinLines b := by
  induction a with
  | nil => simp [joinLines]
  | cons l ls ih => simp [joinLines, ih]

theorem insertAt_length (x : α) : ∀ (l : List α), insertAt l.length x l = l ++ [x]
  | [] => rfl
  | a :: l => by
    have h := insertAt_length x l
    simp only [List.length_cons, insertAt, List.cons_append]
    rw [h]

theorem ensureNL_getLast (cs : Content) : (ensureNL cs).getLast? = some '\n' := by
  unfold ensureNL
  by_cases h : cs.getLast? = some '\n'
  · simp [h]
  · simp [h, List.getLast?_concat]

theorem ensureNL_ne_nil (cs : Content) : ensureNL cs ≠ [] := by
  intro h
  have := ensureNL_getLast cs
  rw [h] at this
  simp at this

/-- One-step unfolding of `splitNL` at a newline. -/
theorem splitNL_cons_nl (acc rest : Content) :
    splitNL acc ('\n' :: rest) = (acc.reverse ++ ['\n']) :: splitNL [] rest := by
  simp [splitNL]

/-- One-step unfolding of `splitNL` at a non-newline character. -/
theorem splitNL_cons_other (acc : Content) (c : Char) (rest : Content) (hc : ¬c = '\n') :
    splitNL acc (c :: rest) = splitNL (c :: acc) rest := by
  simp [splitNL, hc]

/-- Splitting distributes over concatenation when the left part ends with a
newline. -/
theorem splitNL_append (ys : Content) :
    ∀ (xs : Content), xs.getLast? = some '\n' →
      ∀ acc, splitNL acc (xs ++ ys) = splitNL acc xs ++ splitNL [] ys := by
  intro xs
  induction xs with
  | nil => intro h; simp at h
  | cons c rest ih =>
    intro h acc
    cases hr : rest with
    | nil =>
      subst hr
      simp only [List.getLast?_singleton] at h
      have hc : c = '\n' := by injection h
      subst hc
      rw [List.cons_append, List.nil_append, splitNL_cons_nl, splitNL_cons_nl]
      rfl
    | cons b l =>
      subst hr
      rw [List.getLast?_cons_cons] at h
      by_cases hc : c = '\n'
      · subst hc
        rw [List.cons_append, splitNL_cons_nl, splitNL_cons_nl, ih h [], List.cons_append]
      · rw [List.cons_append, splitNL_cons_other _ _ _ hc, splitNL_cons_other _ _ _ hc,
          ih h (c :: acc)]

/-- `readlines` distributes over concatenation when the left part ends with
a newline. -/
theorem readlines_append (xs ys : Content) (h : xs.getLast? = some '\n') :
    readlines (xs ++ ys) = readlines xs ++ readlines ys :=
  splitNL_append ys xs h []

/-! ## Index lemmas -/

theorem get?_some_lt {α : Type} : ∀ (l : List α) (n : Nat) (a : α),
    l.get? n = some a → n < l.length := by
  intro l
  induction l with
  | nil => intro n a h; simp [List.get?] at h
  | cons x xs ih =>
    intro n a h
    cases n with
    | zero => simp [List.length_cons]
    | succ m =>
      have hm := ih m a h
      simp only [List.length_cons]
      omega

theorem getD_of_get? {α : Type} : ∀ (l : List α) (n : Nat) (a d : α),
    l.get? n = some a → l.getD n d = a := by
  intro l
  induction l with
  | nil => intro n a d h; simp [List.get?] at h
  | cons x xs ih =>
    intro n a d h
    cases n with
    | zero =>
      have hx : x = a := by
        have : some x = some a := h
        injection this
      exact hx
    | succ m =>
      exact ih m a d h

theorem get?_of_lt {α : Type} : ∀ (l : List α) (n : Nat), n < l.length →
    ∃ a, l.get? n = some a := by
  intro l
  induction l with
  | nil => intro n h; simp at h
  | cons x xs ih =>
    intro n h
    cases n with
    | zero => exact ⟨x, rfl⟩
    | succ m =>
      have hm : m < xs.length := by
        simp only [List.length_cons] at h
        omega
      exact ih m hm

theorem getD_drop_idx {α : Type} (d : α) : ∀ (n : Nat) (l : List α) (k : Nat),
    (l.drop n).getD k d = l.getD (n + k) d := by
  intro n
  induction n with
  | zero => intro l k; simp
  | succ m ih =>
    intro l k
    cases l with
    | nil => rfl
    | cons x xs =>
      show (xs.drop m).getD k d = (x :: xs).getD (m + 1 + k) d
      rw [ih xs k]
      have harr : m + 1 + k = (m + k) + 1 := by omega
      rw [harr]
      rfl

/-! ## Characterization of the forward boundary scan -/

/-- The exact stopping condition of the forward scan: a non-blank line at
indentation at most `base` that passes the construct test. -/
def EndsBlock (base : Nat) (l : Content) : Prop :=
  pyStrip l ≠ [] ∧ leadingWS l ≤ base ∧ isBoundaryLine l = true

/-- `findEndFrom base i rest` is the least absolute index `≥ i` of a line
satisfying `EndsBlock`, or `i + rest.length` when no such line exists. -/
theorem findEndFrom_char (base : Nat) :
    ∀ (rest : List Content) (i : Nat),
      i ≤ findEndFrom base i rest ∧
      findEndFrom base i rest ≤ i + rest.length ∧
      (∀ k, k < findEndFrom base i rest - i → ¬EndsBlock base (rest.getD k [])) ∧
      (findEndFrom base i rest < i + rest.length →
        EndsBlock base (rest.getD (findEndFrom base i rest - i) [])) := by
  intro rest
  induction rest with
  | nil =>
    intro i
    refine ⟨Nat.le_refl i, by simp [findEndFrom], ?_, ?_⟩
    · intro k hk
      simp [findEndFrom] at hk
    · intro hlt
      simp [findEndFrom] at hlt
  | cons l rest ih =>
    intro i
    by_cases hb : (pyStrip l).isEmpty = true
    · have hstep : findEndFrom base i (l :: rest) = findEndFrom base (i + 1) rest := by
        simp [findEndFrom, hb]
      obtain ⟨ih1, ih2, ih3, ih4⟩ := ih (i + 1)
      rw [hstep]
      refine ⟨by omega, by simp only [List.length_cons]; omega, ?_, ?_⟩
      · intro k hk
        cases k with
        | zero =>
          intro hE
          exact hE.1 (List.isEmpty_iff.mp hb)
        | succ m =>
          have hm : m < findEndFrom base (i + 1) rest - (i + 1) := by omega
          exact ih3 m hm
      · intro hlt
        have hlt2 : findEndFrom base (i + 1) rest < (i + 1) + rest.length := by
          simp only [List.length_cons] at hlt
          omega
        have hidx : findEndFrom base (i + 1) rest - i
            = (findEndFrom base (i + 1) rest - (i + 1)) + 1 := by omega
        rw [hidx]
        exact ih4 hlt2
    · by_cases hc : leadingWS l ≤ base ∧ isBoundaryLine l = true
      · have hstep : findEndFrom base i (l :: rest) = i := by
          simp [findEndFrom, hb, hc]
        rw [hstep]
        refine ⟨Nat.le_refl i, by simp only [List.length_cons]; omega, ?_, ?_⟩
        · intro k hk
          omega
        · intro _
          rw [Nat.sub_self]
          have hl : (l :: rest).getD 0 [] = l := rfl
          rw [hl]
          refine ⟨?_, hc.1, hc.2⟩
          intro hnil
          rw [hnil] at hb
          exact hb rfl
      · have hstep : findEndFrom base i (l :: rest) = findEndFrom base (i + 1) rest := by
          simp [findEndFrom, hb, hc]
        obtain ⟨ih1, ih2, ih3, ih4⟩ := ih (i + 1)
        rw [hstep]
        refine ⟨by omega, by simp only [List.length_cons]; omega, ?_, ?_⟩
        · intro k hk
          cases k with
          | zero =>
            intro hE
            exact hc ⟨hE.2.1, hE.2.2⟩
          | succ m =>
            have hm : m < findEndFrom base (i + 1) rest - (i + 1) := by omega
            exact ih3 m hm
        · intro hlt
          have hlt2 : findEndFrom base (i + 1) rest < (i + 1) + rest.length := by
            simp only [List.length_cons] at hlt
            omega
          have hidx : findEndFrom base (i + 1) rest - i
              = (findEndFrom base (i + 1) rest - (i + 1)) + 1 := by omega
          rw [hidx]
          exact ih4 hlt2

/-- Relocation of `findEndFrom_char` to absolute indices of the full line
list, as used by `find_function_or_class_boundaries`. -/
theorem findEnd_in_lines (lines : List Content) (si base : Nat)
    (h2 : si < lines.length) :
    si < findEndFrom base (si + 1) (lines.drop (si + 1)) ∧
    findEndFrom base (si + 1) (lines.drop (si + 1)) ≤ lines.length ∧
    (∀ j, si < j → j < findEndFrom base (si + 1) (lines.drop (si + 1)) →
      ¬EndsBlock base (lines.getD j [])) ∧
    (findEndFrom base (si + 1) (lines.drop (si + 1)) < lines.length →
      EndsBlock base (lines.getD (findEndFrom base (si + 1) (lines.drop (si + 1))) [])) := by
  obtain ⟨hc1, hc2, hc3, hc4⟩ := findEndFrom_char base (lines.drop (si + 1)) (si + 1)
  rw [List.length_drop] at hc2 hc4
  refine ⟨by omega, by omega, ?_, ?_⟩
  · intro j hj1 hj2
    have hk := hc3 (j - (si + 1)) (by omega)
    rw [getD_drop_idx] at hk
    have harr : (si + 1) + (j - (si + 1)) = j := by omega
    rw [harr] at hk
    exact hk
  · intro hlt
    have hlt2 : findEndFrom base (si + 1) (lines.drop (si + 1))
        < (si + 1) + (lines.length - (si + 1)) := by omega
    have hE := hc4 hlt2
    rw [getD_drop_idx] at hE
    have harr : (si + 1) + (findEndFrom base (si + 1) (lines.drop (si + 1)) - (si + 1))
        = findEndFrom base (si + 1) (lines.drop (si + 1)) := by omega
    rw [harr] at hE
    exact hE

/-! ## Substring and first-match lemmas -/

theorem startsL_iff : ∀ (n h : Content), startsL n h = true ↔ ∃ t, h = n ++ t := by
  intro n
  induction n with
  | nil =>
    intro h
    constructor
    · intro _
      exact ⟨h, rfl⟩
    · intro _
      rfl
  | cons a as ih =>
    intro h
    cases h with
    | nil =>
      constructor
      · intro hs
        simp [startsL] at hs
      · rintro ⟨t, ht⟩
        simp at ht
    | cons b bs =>
      simp only [startsL, Bool.and_eq_true, beq_iff_eq]
      constructor
      · rintro ⟨hab, hs⟩
        obtain ⟨t, ht⟩ := (ih bs).1 hs
        subst hab
        exact ⟨t, by rw [ht]; rfl⟩
      · rintro ⟨t, ht⟩
        have hp : b = a ∧ bs = as ++ t := by
          refine ⟨?_, ?_⟩ <;> injection ht
        exact ⟨hp.1.symm, (ih bs).2 ⟨t, hp.2⟩⟩

theorem containsSub_iff : ∀ (h n : Content),
    containsSub n h = true ↔ ∃ p t, h = p ++ n ++ t := by
  intro h
  induction h with
  | nil =>
    intro n
    cases n with
    | nil =>
      simp only [containsSub, List.isEmpty_nil]
      constructor
      · intro _
        exact ⟨[], [], rfl⟩
      · intro _
        trivial
    | cons c cs =>
      simp only [containsSub, List.isEmpty_cons]
      constructor
      · intro hfalse
        simp at hfalse
      · rintro ⟨p, t, ht⟩
        exact absurd ht.symm (by simp)
  | cons c rest ih =>
    intro n
    simp only [containsSub, Bool.or_eq_true]
    constructor
    · rintro (hs | hc)
      · obtain ⟨t, ht⟩ := (startsL_iff n (c :: rest)).1 hs
        exact ⟨[], t, by rw [ht]; rfl⟩
      · obtain ⟨p, t, ht⟩ := (ih n).1 hc
        exact ⟨c :: p, t, by rw [ht]; rfl⟩
    · rintro ⟨p, t, ht⟩
      cases p with
      | nil =>
        left
        refine (startsL_iff n (c :: rest)).2 ⟨t, ?_⟩
        rw [ht]
        rfl
      | cons q qs =>
        right
        have h2 : rest = qs ++ n ++ t := by
          have : c :: rest = q :: (qs ++ n ++ t) := ht
          injection this with hx hy
        refine (ih n).2 ⟨qs, t, h2⟩

/-- `findFirst` returns the least index satisfying the test. -/
theorem findFirst_spec {α : Type} (p : α → Bool) :
    ∀ (l : List α) (i : Nat), findFirst p l = some i →
      (∃ a, l.get? i = some a ∧ p a = true) ∧
      (∀ j, j < i → ∀ b, l.get? j = some b → p b = false) := by
  intro l
  induction l with
  | nil =>
    intro i h
    simp [findFirst] at h
  | cons x xs ih =>
    intro i h
    by_cases hx : p x = true
    · rw [findFirst, if_pos hx] at h
      have hi : i = 0 := by injection h with h0; omega
      subst hi
      refine ⟨⟨x, rfl, hx⟩, ?_⟩
      intro j hj
      omega
    · rw [findFirst, if_neg hx] at h
      obtain ⟨i2, hi2, hmap⟩ := Option.map_eq_some'.mp h
      subst hmap
      obtain ⟨⟨a, ha, hpa⟩, hall⟩ := ih i2 hi2
      refine ⟨⟨a, ha, hpa⟩, ?_⟩
      intro j hj b hb
      cases j with
      | zero =>
        have hbx : x = b := by injection hb
        subst hbx
        exact Bool.eq_false_iff.mpr hx
      | succ m =>
        exact hall m (by omega) b hb

/-! ## Claims -/

/-- C1: for every mutation operation (`add_code`, `replace_code`,
`delete_code`) on an existing file, if the operation returns an error after
the file was read, the content of the file after the call is identical to
its content before the call — the backup is restored on every failure
path. -/
theorem C1_failed_mutation_restores_file (wo : WriteOutcome) (fs : FS) (path : String)
    (orig : Content) (h : FS.find fs path = some orig) :
    (∀ code ln af ac e, (add_code wo fs path code ln af ac).1 = Except.error e →
      FS.find (add_code wo fs path code ln af ac).2 path = some orig) ∧
    (∀ code ln fn cn sl el e,
      (replace_code wo fs path code ln fn cn sl el).1 = Except.error e →
      FS.find (replace_code wo fs path code ln fn cn sl el).2 path = some orig) ∧
    (∀ ln fn cn sl el e, (delete_code wo fs path ln fn cn sl el).1 = Except.error e →
      FS.find (delete_code wo fs path ln fn cn sl el).2 path = some orig) := by
  refine ⟨fun code ln af ac e he => ?_, fun code ln fn cn sl el e he => ?_,
    fun ln fn cn sl el e he => ?_⟩
  · simp only [add_code, h] at he ⊢
    exact addGo_error _ _ _ _ _ _ _ _ _ he
  · simp only [replace_code, h] at he ⊢
    exact replaceGo_error _ _ _ _ _ _ _ _ _ _ _ he
  · simp only [delete_code, h] at he ⊢
    exact deleteGo_error _ _ _ _ _ _ _ _ _ _ he

/-- Witness for C1: a `replace_code` call with no locator at all fails with
`invalidLocator` and leaves the one-line file intact. -/
theorem C1_witness :
    FS.find [("f.py", ("x = 1\n").data)] "f.py" = some ("x = 1\n").data ∧
    (replace_code WriteOutcome.ok [("f.py", ("x = 1\n").data)] "f.py" "z"
        none none none none none).1 = Except.error WErr.invalidLocator ∧
    FS.find (replace_code WriteOutcome.ok [("f.py", ("x = 1\n").data)] "f.py" "z"
        none none none none none).2 "f.py" = some ("x = 1\n").data :=
  ⟨by decide, rfl,
    (C1_failed_mutation_restores_file WriteOutcome.ok [("f.py", ("x = 1\n").data)]
        "f.py" (("x = 1\n").data) (by decide)).2.1 "z" none none none none none
      WErr.invalidLocator rfl⟩

/-- C7 counterexample: a successful `add_code` call leaves the file
`f.py.backup` on disk (holding the original content); the source removes
backups only through the separate `cleanup_backups` sweep, never at the end
of a successful operation.  This refutes the claim that a successful call
leaves no backup file. -/
theorem C7_counterexample :
    (add_code WriteOutcome.ok [("f.py", ("x = 1\n").data)] "f.py" "y"
        (some 1) none none).1 = Except.ok () ∧
    FS.find (add_code WriteOutcome.ok [("f.py", ("x = 1\n").data)] "f.py" "y"
        (some 1) none none).2 "f.py.backup" = some ("x = 1\n").data :=
  ⟨rfl, by decide⟩

/-- C7 (amended): after a successful mutation operation the backup file
`<path>.backup` is still present on disk, holding the pre-call content of
the file; it is not removed by the operation itself. -/
theorem C7_amended_backup_survives_success (fs : FS) (path : String) (orig : Content)
    (h : FS.find fs path = some orig) :
    (∀ wo code ln af ac u, (add_code wo fs path code ln af ac).1 = Except.ok u →
      FS.find (add_code wo fs path code ln af ac).2 (path ++ ".backup") = some orig) ∧
    (∀ wo code ln fn cn sl el u,
      (replace_code wo fs path code ln fn cn sl el).1 = Except.ok u →
      FS.find (replace_code wo fs path code ln fn cn sl el).2 (path ++ ".backup")
        = some orig) ∧
    (∀ wo ln fn cn sl el u, (delete_code wo fs path ln fn cn sl el).1 = Except.ok u →
      FS.find (delete_code wo fs path ln fn cn sl el).2 (path ++ ".backup")
        = some orig) := by
  refine ⟨fun wo code ln af ac u hu => ?_, fun wo code ln fn cn sl el u hu => ?_,
    fun wo ln fn cn sl el u hu => ?_⟩
  · simp only [add_code, h] at hu ⊢
    exact addGo_ok _ _ _ _ _ _ _ _ _ hu
  · simp only [replace_code, h] at hu ⊢
    exact replaceGo_ok _ _ _ _ _ _ _ _ _ _ _ hu
  · simp only [delete_code, h] at hu ⊢
    exact deleteGo_ok _ _ _ _ _ _ _ _ _ _ hu

/-- Witness for the amended C7: a successful `delete_code` of line 1 leaves
`f.py.backup` holding the original two-line content. -/
theorem C7_amended_witness :
    FS.find [("f.py", ("a\nb\n").data)] "f.py" = some ("a\nb\n").data ∧
    (delete_code WriteOutcome.ok [("f.py", ("a\nb\n").data)] "f.py" (some 1)
        none none none none).1 = Except.ok () ∧
    FS.find (delete_code WriteOutcome.ok [("f.py", ("a\nb\n").data)] "f.py" (some 1)
        none none none none).2 ("f.py" ++ ".backup") = some ("a\nb\n").data :=
  ⟨by decide, rfl,
    (C7_amended_backup_survives_success [("f.py", ("a\nb\n").data)] "f.py"
        (("a\nb\n").data) (by decide)).2.2 WriteOutcome.ok (some 1) none none none none
      () rfl⟩

/-- C10: calling any of the three mutation operations on a path that does
not exist returns the does-not-exist error with the filesystem completely
unchanged — in particular no `<path>.backup` file is created, because the
existence check precedes the backup. -/
theorem C10_missing_path_untouched (wo : WriteOutcome) (fs : FS) (path : String)
    (h : FS.find fs path = none) :
    (∀ code ln af ac,
      add_code wo fs path code ln af ac = (Except.error WErr.notExist, fs)) ∧
    (∀ code ln fn cn sl el,
      replace_code wo fs path code ln fn cn sl el = (Except.error WErr.notExist, fs)) ∧
    (∀ ln fn cn sl el,
      delete_code wo fs path ln fn cn sl el = (Except.error WErr.notExist, fs)) := by
  refine ⟨fun code ln af ac => ?_, fun code ln fn cn sl el => ?_,
    fun ln fn cn sl el => ?_⟩
  · simp only [add_code, h]
  · simp only [replace_code, h]
  · simp only [delete_code, h]

/-- C2 counterexample: in the file `"    def f():\n        y = 1\n    x = 2\n"`
the line `    x = 2` (index 2) is non-blank and has leading-whitespace width
4 ≤ 4 = the declaration line's, so under the claim the span must end there
(end index 2, that line excluded); but the code's forward scan also demands
the construct test (`def `/`class `/`if __name__`/column 0), which this line
fails, so the scan continues and the span runs to end-of-file (end index 3).
Indentation alone does NOT determine the end for nested declarations. -/
theorem C2_counterexample :
    pyStrip (("    x = 2\n").data) ≠ [] ∧
    leadingWS (("    x = 2\n").data) ≤ leadingWS (("    def f():\n").data) ∧
    (find_function_or_class_boundaries
        [("    def f():\n").data, ("        y = 1\n").data, ("    x = 2\n").data]
        1 "f").2 = 3 :=
  ⟨by decide, by decide, by decide⟩

/-- C2 (amended): for a declaration line inside the file, the span computed
by the boundary resolver ends at the first following line satisfying
`EndsBlock`: non-blank, leading-whitespace width ≤ the declaration line's,
AND passing the construct test — its stripped text begins with `def `,
`class ` or `if __name__`, or the raw line does not begin with a space
character.  That line is excluded from the span; blank lines and dedented
lines failing the construct test do not terminate the scan; if no such line
exists the span extends to end-of-file.  (For a top-level declaration whose
following lines are space-indented, the construct test is implied by
indentation 0, so there the original indentation-only reading is
accurate.) -/
theorem C2_amended_span_end (lines : List Content) (startLine : Nat) (targetName : String)
    (h2 : startLine - 1 < lines.length) :
    startLine - 1 < (find_function_or_class_boundaries lines startLine targetName).2 ∧
    (find_function_or_class_boundaries lines startLine targetName).2 ≤ lines.length ∧
    (∀ j, startLine - 1 < j →
      j < (find_function_or_class_boundaries lines startLine targetName).2 →
      ¬EndsBlock (leadingWS (lines.getD (startLine - 1) [])) (lines.getD j [])) ∧
    ((find_function_or_class_boundaries lines startLine targetName).2 < lines.length →
      EndsBlock (leadingWS (lines.getD (startLine - 1) []))
        (lines.getD (find_function_or_class_boundaries lines startLine targetName).2 [])) :=
  findEnd_in_lines lines (startLine - 1) (leadingWS (lines.getD (startLine - 1) [])) h2

/-- Witness for the amended C2: resolving `def f` at line 1 of
`"def f():\n    x = 1\ny = 2\n"`; the span ends at index 2 (`y = 2`), which
satisfies `EndsBlock`, and no earlier body line does. -/
theorem C2_amended_witness :
    1 - 1 < ([("def f():\n").data, ("    x = 1\n").data, ("y = 2\n").data] :
      List Content).length ∧
    (1 - 1 < (find_function_or_class_boundaries
        [("def f():\n").data, ("    x = 1\n").data, ("y = 2\n").data] 1 "f").2 ∧
    (find_function_or_class_boundaries
        [("def f():\n").data, ("    x = 1\n").data, ("y = 2\n").data] 1 "f").2
      ≤ ([("def f():\n").data, ("    x = 1\n").data, ("y = 2\n").data] :
          List Content).length ∧
    (∀ j, 1 - 1 < j →
      j < (find_function_or_class_boundaries
        [("def f():\n").data, ("    x = 1\n").data, ("y = 2\n").data] 1 "f").2 →
      ¬EndsBlock (leadingWS (([("def f():\n").data, ("    x = 1\n").data,
          ("y = 2\n").data] : List Content).getD (1 - 1) []))
        (([("def f():\n").data, ("    x = 1\n").data, ("y = 2\n").data] :
          List Content).getD j [])) ∧
    ((find_function_or_class_boundaries
        [("def f():\n").data, ("    x = 1\n").data, ("y = 2\n").data] 1 "f").2
        < ([("def f():\n").data, ("    x = 1\n").data, ("y = 2\n").data] :
            List Content).length →
      EndsBlock (leadingWS (([("def f():\n").data, ("    x = 1\n").data,
          ("y = 2\n").data] : List Content).getD (1 - 1) []))
        (([("def f():\n").data, ("    x = 1\n").data, ("y = 2\n").data] :
          List Content).getD (find_function_or_class_boundaries
            [("def f():\n").data, ("    x = 1\n").data, ("y = 2\n").data] 1 "f").2 []))) :=
  ⟨by decide, C2_amended_span_end
    [("def f():\n").data, ("    x = 1\n").data, ("y = 2\n").data] 1 "f" (by decide)⟩

/-- C3 counterexample: the requested function name `sum` is a strict prefix
of `summary`, yet `replace_code` resolves it to the `def summary` line — the
scan is `f"def sum" in line`, a plain substring test with no boundary
character check — and replaces the whole `summary` function. -/
theorem C3_counterexample :
    startsL (("sum").data) (("summary").data) = true ∧
    ("sum" : String) ≠ "summary" ∧
    (replace_code WriteOutcome.ok [("f.py", ("def summary():\n    pass\n").data)]
        "f.py" "def sum2():" none (some "sum") none none none).1 = Except.ok () ∧
    FS.find (replace_code WriteOutcome.ok
        [("f.py", ("def summary():\n    pass\n").data)]
        "f.py" "def sum2():" none (some "sum") none none none).2 "f.py"
      = some (("def sum2():\n").data) :=
  ⟨by decide, by decide, rfl, by decide⟩

/-- C3 (amended): the symbol locator selects the first line that contains
`"<kind> <name>"` as a PLAIN substring — no token-boundary check follows the
name, so a requested name that is a strict prefix of another symbol's name
does match that other symbol's declaration line.  The amended first-match
property: the returned index is in range, its line contains the pattern as a
substring, and no earlier line does. -/
theorem C3_amended_substring_first_match (kind tname : String) (lines : List Content)
    (i : Nat) (h : findSymbolIdx kind tname lines = some i) :
    i < lines.length ∧
    (∃ pre post, lines.getD i [] = pre ++ (kind ++ " " ++ tname).data ++ post) ∧
    (∀ j, j < i →
      ¬∃ pre post, lines.getD j [] = pre ++ (kind ++ " " ++ tname).data ++ post) := by
  obtain ⟨⟨a, ha, hpa⟩, hall⟩ :=
    findFirst_spec (containsSub ((kind ++ " " ++ tname).data)) lines i h
  have hlen : i < lines.length := get?_some_lt lines i a ha
  have hgd : lines.getD i [] = a := getD_of_get? lines i a [] ha
  refine ⟨hlen, ?_, ?_⟩
  · rw [hgd]
    exact (containsSub_iff a ((kind ++ " " ++ tname).data)).1 hpa
  · intro j hj hex
    have hjlen : j < lines.length := by omega
    obtain ⟨b, hb⟩ := get?_of_lt lines j hjlen
    have hgdj : lines.getD j [] = b := getD_of_get? lines j b [] hb
    rw [hgdj] at hex
    have hcontains : containsSub ((kind ++ " " ++ tname).data) b = true :=
      (containsSub_iff b ((kind ++ " " ++ tname).data)).2 hex
    have hfalse := hall j hj b hb
    rw [hcontains] at hfalse
    exact Bool.noConfusion hfalse

/-- Witness for the amended C3: searching `def sum` in a two-line file whose
second line is `def summary():` returns index 1; that line contains the
pattern as a substring and the first line does not. -/
theorem C3_amended_witness :
    findSymbolIdx "def" "sum" [("x = 1\n").data, ("def summary():\n").data]
      = some 1 ∧
    (1 < ([("x = 1\n").data, ("def summary():\n").data] : List Content).length ∧
    (∃ pre post, ([("x = 1\n").data, ("def summary():\n").data] :
        List Content).getD 1 [] = pre ++ ("def" ++ " " ++ "sum").data ++ post) ∧
    (∀ j, j < 1 →
      ¬∃ pre post, ([("x = 1\n").data, ("def summary():\n").data] :
        List Content).getD j [] = pre ++ ("def" ++ " " ++ "sum").data ++ post)) :=
  ⟨by decide, C3_amended_substring_first_match "def" "sum"
    [("x = 1\n").data, ("def summary():\n").data] 1 (by decide)⟩

/-- C8: searching `sum` in `function_def` mode over a file containing both
`total = sum(x)` and `def sum(a, b):` ranks the `def` line first: the call
site `sum(x)` matches none of the three definition patterns, while the `def`
line matches `def\s+sum\s*\(` and scores 4.1 (definition-line score 4.0
plus one 0.1 occurrence bonus, held here in tenths). -/
theorem C8_function_def_ranks_def_line_first :
    (searchFileFunctionDef "sum" 50
        [("total = sum(x)\n").data, ("def sum(a, b):\n").data]).head?
      = some ⟨2, ("def sum(a, b):").data, 41⟩ := by
  decide

/-- The per-file scan yields no matches when the per-line test never
fires. -/
theorem filterMap_withIdx_nil {β : Type} (f : Nat × Content → Option β)
    (hf : ∀ ia, f ia = none) : ∀ (n : Nat) (ls : List Content),
    (withIdx n ls).filterMap f = [] := by
  intro n ls
  induction ls generalizing n with
  | nil => rfl
  | cons l rest ih =>
    rw [withIdx, List.filterMap_cons, hf (n, l)]
    exact ih (n + 1)

/-- C9: for a pattern the regex engine cannot compile, the per-line matcher
`search_regex` is total and returns `false` for every line (the source
catches `re.error` and returns `False`), so a regex-mode search reports zero
matches and never raises. -/
theorem C9_invalid_regex_matches_nothing (engine : String → Option (Content → Bool))
    (pattern : String) (h : engine pattern = none) :
    (∀ content, search_regex engine pattern content = false) ∧
    (∀ maxResults fileLines, searchFileRegex engine pattern maxResults fileLines = []) := by
  have hfalse : ∀ content, search_regex engine pattern content = false := by
    intro c
    unfold search_regex
    rw [h]
  refine ⟨hfalse, fun maxResults fileLines => ?_⟩
  unfold searchFileRegex search_lines
  have hcol : collectMatches (search_regex engine pattern) pattern fileLines = [] := by
    unfold collectMatches
    apply filterMap_withIdx_nil
    intro ia
    simp [hfalse]
  rw [hcol]
  simp [sortDesc]

/-- Witness for C9: an engine that rejects every pattern (as `re` rejects
the lone `(`) yields a matcher constantly false and an empty result list. -/
theorem C9_witness :
    (fun _ : String => (none : Option (Content → Bool))) "(" = none ∧
    search_regex (fun _ : String => (none : Option (Content → Bool))) "("
      (("x = 1").data) = false ∧
    searchFileRegex (fun _ : String => (none : Option (Content → Bool))) "(" 50
      [("x = 1\n").data] = [] :=
  ⟨rfl,
    (C9_invalid_regex_matches_nothing (fun _ => none) "(" rfl).1 (("x = 1").data),
    (C9_invalid_regex_matches_nothing (fun _ => none) "(" rfl).2 50 [("x = 1\n").data]⟩

/-- C4 (code bug): on the 3-line file `a\nb\nc\n`, `delete_code` with the
inverted explicit range `start_line = 3`, `end_line = 1` is accepted — the
only validation is `delete_start < 0 or delete_end >= len(lines)` — and the
splice `lines[:2] + lines[1:]` DUPLICATES line 2: the "delete" succeeds and
grows the file to `a\nb\nb\nc\n`, instead of failing with an out-of-range
error and leaving the file unchanged as the claim requires. -/
theorem C4_inverted_range_accepted :
    (delete_code WriteOutcome.ok [("f.py", ("a\nb\nc\n").data)] "f.py"
        none none none (some 3) (some 1)).1 = Except.ok () ∧
    FS.find (delete_code WriteOutcome.ok [("f.py", ("a\nb\nc\n").data)] "f.py"
        none none none (some 3) (some 1)).2 "f.py" = some (("a\nb\nb\nc\n").data) :=
  ⟨rfl, by decide⟩

/-- C5 counterexample: `add_code` with `line_number = 0` on an existing file
does not fail — the claim requires an out-of-range error — but silently
clamps the insert position to the start of the file and succeeds. -/
theorem C5_counterexample :
    (add_code WriteOutcome.ok [("f.py", ("x = 1\n").data)] "f.py" "y"
        (some 0) none none).1 = Except.ok () ∧
    FS.find (add_code WriteOutcome.ok [("f.py", ("x = 1\n").data)] "f.py" "y"
        (some 0) none none).2 "f.py" = some (("y\nx = 1\n").data) :=
  ⟨rfl, by decide⟩

/-- C5 (amended): `add_code` with an explicit line number never raises an
out-of-range error on an existing file; the position is silently clamped:
any `n ≤ 0` inserts at the very beginning and any `n ≥ line_count + 1`
appends at the very end. -/
theorem C5_amended_line_number_clamped (fs : FS) (path code : String) (orig : Content)
    (n : Int) (h : FS.find fs path = some orig) :
    (add_code WriteOutcome.ok fs path code (some n) none none).1 = Except.ok () ∧
    (n ≤ 0 →
      FS.find (add_code WriteOutcome.ok fs path code (some n) none none).2 path
        = some (ensureNL code.data ++ orig)) ∧
    (((readlines orig).length : Int) + 1 ≤ n →
      FS.find (add_code WriteOutcome.ok fs path code (some n) none none).2 path
        = some (orig ++ ensureNL code.data)) := by
  have key : add_code WriteOutcome.ok fs path code (some n) none none
      = (Except.ok (), FS.set (FS.set fs (path ++ ".backup") orig) path
          (joinLines (insertAt
            (if (n - 1 : Int) < 0 then 0 else min (n - 1).toNat (readlines orig).length)
            (ensureNL code.data) (readlines orig)))) := by
    simp only [add_code, h, addGo, addInsertIdx, doWrite]
  refine ⟨by rw [key], fun hn => ?_, fun hn => ?_⟩
  · rw [key]
    have hlt : (n - 1 : Int) < 0 := by omega
    rw [if_pos hlt]
    have hins : insertAt 0 (ensureNL code.data) (readlines orig)
        = ensureNL code.data :: readlines orig := rfl
    rw [hins]
    have hjoin : joinLines (ensureNL code.data :: readlines orig)
        = ensureNL code.data ++ joinLines (readlines orig) := rfl
    rw [hjoin, join_readlines]
    exact find_set_self _ _ _
  · rw [key]
    have hge : ¬((n - 1 : Int) < 0) := by omega
    rw [if_neg hge]
    have hmin : min (n - 1).toNat (readlines orig).length = (readlines orig).length := by
      have hle : (readlines orig).length ≤ (n - 1).toNat := by omega
      exact Nat.min_eq_right hle
    rw [hmin, insertAt_length, joinLines_append, joinLines, joinLines, join_readlines,
      List.append_nil]
    exact find_set_self _ _ _

/-- Witness for the amended C5: inserting with `line_number = 0` into a
one-line file succeeds and prepends the text. -/
theorem C5_amended_witness :
    FS.find [("g.py", ("a = 2\n").data)] "g.py" = some ("a = 2\n").data ∧
    (0 : Int) ≤ 0 ∧
    FS.find (add_code WriteOutcome.ok [("g.py", ("a = 2\n").data)] "g.py" "w"
        (some 0) none none).2 "g.py"
      = some (ensureNL ("w").data ++ ("a = 2\n").data) :=
  ⟨by decide, by decide,
    (C5_amended_line_number_clamped [("g.py", ("a = 2\n").data)] "g.py" "w"
        (("a = 2\n").data) 0 (by decide)).2.1 (by decide)⟩

/-- C6 counterexample: inserting at `line_count + 1` into the one-line file
`"a"` (no trailing newline) produces `"ab\n"` — the inserted text is glued
onto the last existing line instead of starting a new line, and the result
ends with a newline although the original did not, refuting both parts of
the claim. -/
theorem C6_counterexample :
    FS.find (add_code WriteOutcome.ok [("f.py", ("a").data)] "f.py" "b"
        (some 2) none none).2 "f.py" = some (("ab\n").data) ∧
    (("a").data).getLast? ≠ some '\n' ∧
    (("ab\n").data).getLast? = some '\n' := by
  refine ⟨by decide, by decide, by decide⟩

/-- C6 (amended): if the original file is empty or ends with a trailing
newline, inserting at `line_count + 1` succeeds and appends the (newline-
normalized) text after the last existing line, as new lines; the result
always ends with a newline because the inserted code is normalized to end
with one — so the original trailing-newline convention is preserved exactly
when the original ended with a newline, and a file not ending in a newline
instead has the text merged into its last line. -/
theorem C6_amended_insert_at_end (fs : FS) (path code : String) (orig : Content)
    (h : FS.find fs path = some orig)
    (hnl : orig = [] ∨ orig.getLast? = some '\n') :
    (add_code WriteOutcome.ok fs path code
        (some (((readlines orig).length : Int) + 1)) none none).1 = Except.ok () ∧
    FS.find (add_code WriteOutcome.ok fs path code
        (some (((readlines orig).length : Int) + 1)) none none).2 path
      = some (orig ++ ensureNL code.data) ∧
    (orig ++ ensureNL code.data).getLast? = some '\n' ∧
    readlines (orig ++ ensureNL code.data)
      = readlines orig ++ readlines (ensureNL code.data) := by
  have key : add_code WriteOutcome.ok fs path code
        (some (((readlines orig).length : Int) + 1)) none none
      = (Except.ok (), FS.set (FS.set fs (path ++ ".backup") orig) path
          (joinLines (insertAt (readlines orig).length
            (ensureNL code.data) (readlines orig)))) := by
    simp only [add_code, h, addGo, addInsertIdx, doWrite]
    have h1 : ¬((((readlines orig).length : Int) + 1 - 1) < 0) := by omega
    rw [if_neg h1]
    have h2 : (((readlines orig).length : Int) + 1 - 1).toNat
        = (readlines orig).length := by omega
    rw [h2, Nat.min_self]
  have hcontent : joinLines (insertAt (readlines orig).length
      (ensureNL code.data) (readlines orig)) = orig ++ ensureNL code.data := by
    rw [insertAt_length, joinLines_append, joinLines, joinLines, join_readlines,
      List.append_nil]
  refine ⟨by rw [key], ?_, ?_, ?_⟩
  · rw [key]
    dsimp only
    rw [hcontent]
    exact find_set_self _ _ _
  · rw [List.getLast?_append_of_ne_nil _ (ensureNL_ne_nil code.data)]
    exact ensureNL_getLast code.data
  · rcases hnl with hnil | hlast
    · subst hnil
      rw [List.nil_append]
      rfl
    · exact readlines_append orig (ensureNL code.data) hlast

/-- Witness for the amended C6: appending `"b"` at line 2 of the one-line
file `"a\n"` yields `"a\nb\n"`, whose lines are the old line followed by
the new one. -/
theorem C6_amended_witness :
    FS.find [("h.py", ("a\n").data)] "h.py" = some ("a\n").data ∧
    (("a\n").data = ([] : Content) ∨ (("a\n").data).getLast? = some '\n') ∧
    FS.find (add_code WriteOutcome.ok [("h.py", ("a\n").data)] "h.py" "b"
        (some ((((readlines (("a\n").data)).length : Int)) + 1)) none none).2 "h.py"
      = some (("a\n").data ++ ensureNL ("b").data) :=
  ⟨by decide, Or.inr (by decide),
    (C6_amended_insert_at_end [("h.py", ("a\n").data)] "h.py" "b" (("a\n").data)
        (by decide) (Or.inr (by decide))).2.1⟩

/-- Witness for C10: on an empty filesystem, `add_code` on a missing path
fails with `notExist` and the filesystem (still empty) holds no backup. -/
theorem C10_witness :
    FS.find ([] : FS) "a.py" = none ∧
    add_code WriteOutcome.ok ([] : FS) "a.py" "x" none none none
      = (Except.error WErr.notExist, ([] : FS)) :=
  ⟨rfl, (C10_missing_path_untouched WriteOutcome.ok ([] : FS) "a.py" rfl).1
    "x" none none none⟩

end AgentCode
